import Mathlib

/-!
Verification of the Glyph text-to-image rendering pipeline.

The definitions below are a shallow embedding of the Python sources
`scripts/word2png_function.py` and `simple_text2img/text_to_image.py`:
configuration-dictionary merging, the grayscale crop pipeline
(content crop and axis crop), text normalization, output file naming,
and the batch orchestrator with recovery mode.
-/

namespace Glyph

/-! ## Configuration dictionaries

A Python dict of configuration values is embedded as a partial map from
string keys to values; `updateDict base upd` is `base.update(upd)` seen
as a merged map (keys of `upd` win). -/

abbrev Dict (V : Type) : Type := String → Option V

def emptyDict {V : Type} : Dict V := fun _ => none

def updateDict {V : Type} (base upd : Dict V) : Dict V := fun k =>
  match upd k with
  | some v => some v
  | none => base k

/-- Config resolution of `convert_text_to_images`
(simple_text2img/text_to_image.py lines 148-184):
`base_config = {}`, then `base_config.update(file_config)`, then the
update with the explicit-argument block, then, if the advanced `config`
map is given, `base_config.update(config)`. -/
def resolveConfig {V : Type} (fileConfig explicitArgs : Dict V)
    (override : Option (Dict V)) : Dict V :=
  let base := updateDict emptyDict fileConfig
  let base := updateDict base explicitArgs
  match override with
  | some c => updateDict base c
  | none => base

/-- Config merge of `process_one` (scripts/word2png_function.py line 281):
`config = {**GLOBAL_CONFIG, **item_config}`. -/
def mergeItemConfig {V : Type} (globalConfig itemConfig : Dict V) : Dict V :=
  updateDict globalConfig itemConfig

/-! ## Grayscale images and the crop pipeline

A rasterized page is embedded as a grayscale pixel grid: `px r c` is the
value of the pixel at row `r`, column `c` (as produced by
`np.array(img.convert("L"))`). -/

structure GrayImage where
  width : Nat
  height : Nat
  px : Nat → Nat → Nat

/-- Insert a pixel value into a sorted list, keeping it sorted. -/
def insertSorted (x : Nat) : List Nat → List Nat
  | [] => [x]
  | y :: ys => if x ≤ y then x :: y :: ys else y :: insertSorted x ys

def sortPixels (l : List Nat) : List Nat := l.foldr insertSorted []

/-- Twice `np.median`: the median of an odd-length list is the middle
element of the sorted values, of an even-length list the mean of the two
middle elements, so it can be half-integral; doubling it keeps the exact
value in `Nat`. -/
def npMedianTimes2 (l : List Nat) : Nat :=
  let s := sortPixels l
  let n := s.length
  if n = 0 then 0
  else if n % 2 = 1 then 2 * s.getD (n / 2) 0
  else s.getD (n / 2 - 1) 0 + s.getD (n / 2) 0

/-- The flattened top-left corner patch `gray[:k, :k]`. -/
def cornerPatch (img : GrayImage) (k : Nat) : List Nat :=
  (List.range (min k img.height)).flatMap (fun r =>
    (List.range (min k img.width)).map (fun c => img.px r c))

/-- Twice `bg_gray = np.median(gray[:k, :k])`. -/
def bgGray2 (img : GrayImage) (k : Nat) : Nat := npMedianTimes2 (cornerPatch img k)

/-- Distance between two naturals. -/
def natDist (a b : Nat) : Nat := if a ≤ b then b - a else a - b

/-- `mask = np.abs(gray - bg_gray) > tolerance` at one pixel, stated on
doubled values so that the possibly half-integral median stays exact:
numpy promotes `gray - bg_gray` to float, and
`|g - bg| > tol` holds iff `|2g - 2bg| > 2tol`. -/
def fgMask (img : GrayImage) (bg2 tol : Nat) (r c : Nat) : Bool :=
  decide (2 * tol < natDist (2 * img.px r c) bg2)

/-- `rows = np.where(mask.any(axis=1))[0]`: indices of rows containing a
foreground pixel, in ascending order. -/
def fgRows (img : GrayImage) (bg2 tol : Nat) : List Nat :=
  (List.range img.height).filter (fun r =>
    (List.range img.width).any (fun c => fgMask img bg2 tol r c))

/-- `cols = np.where(mask.any(axis=0))[0]`: indices of columns containing
a foreground pixel, in ascending order. -/
def fgCols (img : GrayImage) (bg2 tol : Nat) : List Nat :=
  (List.range img.width).filter (fun c =>
    (List.range img.height).any (fun r => fgMask img bg2 tol r c))

/-- `img.crop((left, top, right, bottom))` of PIL: the half-open region
with rows `[top, bottom)` and columns `[left, right)`. -/
def cropImg (img : GrayImage) (left top right bottom : Nat) : GrayImage :=
  ⟨right - left, bottom - top, fun r c => img.px (top + r) (left + c)⟩

/-- Content crop of `convert_text_to_images`
(simple_text2img/text_to_image.py lines 303-325): background sampled as
the median of the 10x10 corner patch, tolerance 8, bounding box of the
foreground mask expanded by the fixed 10-pixel margin, clipped at the
page edges, degenerate boxes skipped. -/
def contentCrop (img : GrayImage) : GrayImage :=
  let bg2 := bgGray2 img 10
  let rows := fgRows img bg2 8
  let cols := fgCols img bg2 8
  if rows ≠ [] ∧ cols ≠ [] then
    let top := rows.headD 0 - 10
    let bottom := min img.height (rows.getLastD 0 + 10)
    let left := cols.headD 0 - 10
    let right := min img.width (cols.getLastD 0 + 10)
    if top < bottom ∧ left < right then cropImg img left top right bottom
    else img
  else img

/-- Axis crop (scripts/word2png_function.py lines 233-251 and
simple_text2img/text_to_image.py lines 327-346): background sampled from
the 2x2 corner patch, tolerance 5; width trim on every page to
`min(width, cols[-1] + 1 + margin_x)`; vertical trim only when
`offset == num_pages`, to `min(height, rows[-1] + margin_y)` using the
mask of the uncropped page. -/
def axisCrop (img : GrayImage) (autoCropWidth autoCropLastPage : Bool)
    (pageIndex numPages marginX marginY : Nat) : GrayImage :=
  if autoCropWidth || (autoCropLastPage && (pageIndex == numPages)) then
    let bg2 := bgGray2 img 2
    let cols := fgCols img bg2 5
    let rows := fgRows img bg2 5
    let img1 :=
      if autoCropWidth then
        if cols ≠ [] then
          cropImg img 0 0 (min img.width (cols.getLastD 0 + 1 + marginX)) img.height
        else img
      else img
    if autoCropLastPage && (pageIndex == numPages) then
      if rows ≠ [] then
        cropImg img1 0 0 img1.width (min img1.height (rows.getLastD 0 + marginY))
      else img1
    else img1
  else img

/-- The crop stage of `convert_text_to_images`
(simple_text2img/text_to_image.py lines 303-346): the
`if auto_crop_to_content: ... elif auto-crop-width or ...` chain; content
crop and axis crop are mutually exclusive, content crop first. -/
def cropStage (img : GrayImage) (autoCropToContent autoCropWidth autoCropLastPage : Bool)
    (pageIndex numPages marginX marginY : Nat) : GrayImage :=
  if autoCropToContent then contentCrop img
  else axisCrop img autoCropWidth autoCropLastPage pageIndex numPages marginX marginY

/-! ## Text normalization

The normalization pipeline of `text_to_images` / `convert_text_to_images`
(word2png_function.py lines 186-192, text_to_image.py lines 243-249):
strip soft hyphen and zero-width space, markup-escape, replace space
runs, split on newlines. Python strings are embedded as `List Char`. -/

def softHyphen : Char := Char.ofNat 0xAD

def zeroWidthSpace : Char := Char.ofNat 0x200B

/-- `text.replace('\xad', '').replace('\u200b', '')`. -/
def removeControlChars (s : List Char) : List Char :=
  (s.filter (fun c => c ≠ softHyphen)).filter (fun c => c ≠ zeroWidthSpace)

/-- One character under `xml.sax.saxutils.escape`. -/
def escapeChar (c : Char) : List Char :=
  if c = '&' then ("&amp;").toList
  else if c = '<' then ("&lt;").toList
  else if c = '>' then ("&gt;").toList
  else [c]

def escapeMarkup (s : List Char) : List Char := s.flatMap escapeChar

/-- `'&nbsp;' * n`. -/
def nbspRun (n : Nat) : List Char := (List.replicate n (("&nbsp;").toList)).flatten

/-- What the matched run of `n` consecutive spaces turns into: the regex
` {2,}` only matches runs of length at least 2, which become
`'&nbsp;' * n`; a single space is left alone. -/
def emitSpaces (n : Nat) : List Char :=
  if 2 ≤ n then nbspRun n else List.replicate n ' '

/-- Scanner for `re.sub(r' {2,}', lambda m: '&nbsp;'*len(m.group()), s)`;
`pending` counts the spaces of the current run. -/
def replaceSpacesAux : List Char → Nat → List Char
  | [], pending => emitSpaces pending
  | c :: rest, pending =>
    if c = ' ' then replaceSpacesAux rest (pending + 1)
    else emitSpaces pending ++ c :: replaceSpacesAux rest 0

def replaceSpaces (s : List Char) : List Char := replaceSpacesAux s 0

/-- Python `str.split('\n')`: never empty, one entry per newline plus one. -/
def splitNl : List Char → List (List Char)
  | [] => [[]]
  | c :: rest =>
    if c = '\n' then [] :: splitNl rest
    else
      match splitNl rest with
      | l :: ls => (c :: l) :: ls
      | [] => [[c]]

/-- The full normalization:
`parts = replace_spaces(escape(text.replace('\xad','').replace('\u200b',''))).split('\n')`. -/
def normalizeText (s : List Char) : List (List Char) :=
  splitNl (replaceSpaces (escapeMarkup (removeControlChars s)))

/-! ## Output file naming and page iteration

From `text_to_images` (word2png_function.py lines 216-255): pages are
rasterized in batches of 20 and each page `offset` is saved as
`page_{offset:03d}.png` under `output_dir/unique_id`. -/

/-- Decimal digit characters of `n`. -/
def decRepr (n : Nat) : List Char := Nat.toDigits 10 n

/-- Python `f"{n:03d}"`: zero-fill to a minimum width of 3. -/
def pad3 (n : Nat) : List Char :=
  List.replicate (3 - (decRepr n).length) '0' ++ decRepr n

/-- `f"page_{offset:03d}.png"`. -/
def pageFileName (offset : Nat) : List Char :=
  ("page_").toList ++ pad3 offset ++ (".png").toList

/-- The page offsets visited by
`for start in range(1, total + 1, 20): for offset in range(start, min(start + 19, total) + 1)`. -/
def rasterPages (start total : Nat) : List Nat :=
  if _hle : start ≤ total then
    let e := min (start + 19) total
    List.range' start (e + 1 - start) ++ rasterPages (e + 1) total
  else []
termination_by total + 1 - start
decreasing_by
  simp only [Nat.min_def]
  split <;> omega

/-- Whether a POSIX path is absolute. -/
def isAbsolutePath (p : List Char) : Bool :=
  match p with
  | c :: _ => c == '/'
  | [] => false

/-- `os.path.abspath` (word2png_function.py line 255): a relative path is
resolved against the process working directory `cwd`, an absolute path is
kept; the paths built here contain no `.` or `..` segments and no doubled
separators, on which `normpath` is the identity. -/
def absPath (cwd p : List Char) : List Char :=
  if isAbsolutePath p then p else cwd ++ '/' :: p

/-- The ordered list of paths returned by `text_to_images`:
`os.path.abspath(os.path.join(os.path.join(output_dir, unique_id), f"page_{offset:03d}.png"))`
for each rasterized page, in order of production, with `cwd` the process
working directory. -/
def imagePaths (cwd outputDir identifier : List Char) (total : Nat) : List (List Char) :=
  (rasterPages 1 total).map (fun i =>
    absPath cwd (outputDir ++ '/' :: identifier ++ '/' :: pageFileName i))

/-! ## Batch orchestrator

From `process_one` and `batch_process_to_images`
(word2png_function.py lines 267-383). The output directory is embedded
as a map from identifier to the produced page files of its dedicated
subdirectory; the external rendering chain (typeset, rasterize, save) is
an opaque deterministic function from text, resolved config, and
identifier to the produced files. -/

abbrev FS : Type := String → Option (List String)

def fsInsert (fs : FS) (id : String) (v : List String) : FS :=
  fun k => if k = id then some v else fs k

/-- One input record of the batch JSON: `unique_id`, `context`, optional
per-item `config`, and the `image_paths` attached after processing. -/
structure Item (V : Type) where
  unique_id : Option String
  context : String
  config : Option (Dict V)
  image_paths : List String

inductive ProcError where
  | assertId
  | assertText
deriving DecidableEq

abbrev RenderFn (V : Type) : Type := String → Dict V → String → List String

/-- `process_one` (word2png_function.py lines 267-310): assert the id,
skip when recovery mode is on and the item's output subdirectory exists,
otherwise merge the item config over the shared config, assert the text,
and run the rendering chain, writing the item's subdirectory. Python
`assert _id` fails on both a missing and an empty identifier. -/
def processOne {V : Type} (render : RenderFn V) (globalConfig : Dict V)
    (recover : Bool) (fs : FS) (item : Item V) : Except ProcError (FS × Item V) :=
  match item.unique_id with
  | none => Except.error ProcError.assertId
  | some id =>
    if id = "" then Except.error ProcError.assertId
    else if recover && (fs id).isSome then
      Except.ok (fs, ⟨item.unique_id, item.context, item.config, []⟩)
    else
      let cfg := match item.config with
        | some itemConfig => mergeItemConfig globalConfig itemConfig
        | none => globalConfig
      if item.context = "" then Except.error ProcError.assertText
      else
        let paths := render item.context cfg id
        Except.ok (fsInsert fs id paths, ⟨item.unique_id, item.context, item.config, paths⟩)

/-- The result-collection loop over the worker pool: an exception raised
inside a worker re-raises in the parent at the iteration point of
`pool.imap_unordered` and aborts the run; successful results are
appended to the ledger. -/
def runItems {V : Type} (render : RenderFn V) (g : Dict V) (recover : Bool) :
    FS → List (Item V) → List (Item V) → Except ProcError (FS × List (Item V))
  | fs, acc, [] => Except.ok (fs, acc)
  | fs, acc, item :: rest =>
    match processOne render g recover fs item with
    | Except.error e => Except.error e
    | Except.ok (fs', item') => runItems render g recover fs' (acc ++ [item']) rest

/-- `batch_process_to_images` (word2png_function.py lines 313-383):
without recovery the output tree and the ledger file are deleted first;
with recovery the ledger is read and items whose id already appears in
it are filtered out; then every remaining item is processed and its
result appended to the ledger. -/
def batchRun {V : Type} (render : RenderFn V) (g : Dict V) (recover : Bool)
    (fs0 : FS) (ledger0 : List (Item V)) (items : List (Item V)) :
    Except ProcError (FS × List (Item V)) :=
  let fs := if recover then fs0 else fun _ => none
  let prevLedger := if recover then ledger0 else []
  let processedIds := prevLedger.map (fun it => it.unique_id)
  let todo := items.filter (fun it => !(processedIds.contains it.unique_id))
  match runItems render g recover fs [] todo with
  | Except.error e => Except.error e
  | Except.ok (fs', results) => Except.ok (fs', prevLedger ++ results)

/-! ## Concrete fixtures used by counterexamples and witnesses -/

/-- A config-file layer supplying nothing. -/
def fileNoneC : Dict Nat := fun _ => none

/-- The explicit-argument layer supplying `font-size = 12`. -/
def explicitC : Dict Nat := fun k => if k = "font-size" then some 12 else none

/-- The advanced override map supplying `font-size = 20`. -/
def overrideC : Dict Nat := fun k => if k = "font-size" then some 20 else none

/-- A 23x23 white page with a single black pixel at row 12, column 12. -/
def singleDotImage : GrayImage :=
  ⟨23, 23, fun r c => if r = 12 ∧ c = 12 then 0 else 255⟩

/-- A uniform 5x5 page, entirely background. -/
def blankImage : GrayImage := ⟨5, 5, fun _ _ => 255⟩

/-- Concrete rendering function used by witnesses. -/
def renderC : RenderFn Nat := fun _ _ _ => ["pg"]

def gC : Dict Nat := fun _ => none

/-- A filesystem whose output directory already holds subdirectory `a`. -/
def fsC : FS := fun k => if k = "a" then some ["old"] else none

def itemA : Item Nat := ⟨some ("a"), "hello", none, []⟩

def outBatchC : FS × List (Item Nat) := (fsC, [⟨some ("a"), "hello", none, []⟩])

def itemB : Item Nat := ⟨some ("b"), "hi", none, []⟩

def outCleanC : FS × List (Item Nat) :=
  (fsInsert (fun _ => none) "b" ["pg"], [⟨some ("b"), "hi", none, ["pg"]⟩])

/-! ## C2: configuration layer precedence -/

/-- C2 counterexample: the claim says an explicit call argument always
wins over the advanced override map, but `convert_text_to_images`
applies `base_config.update(config)` last, so the override map's
`font-size = 20` beats the explicit argument's `font-size = 12`. -/
theorem config_precedence_counterexample :
    explicitC "font-size" = some 12 ∧
    overrideC "font-size" = some 20 ∧
    resolveConfig fileNoneC explicitC (some overrideC) "font-size" = some 20 ∧
    ¬(resolveConfig fileNoneC explicitC (some overrideC) "font-size" = some 12) := by
  refine ⟨by decide, by decide, by decide, by decide⟩

/-- C2 amended: layers are resolved in the order config-file, then
explicit call arguments, then the advanced override map highest; for
every key, the value of the highest layer supplying it wins (so the
override map beats explicit arguments, and explicit arguments beat the
config file); in `process_one` the per-item config beats the shared
global config. -/
theorem config_precedence_amended {V : Type} (f e o g i : Dict V) (k : String) :
    (∀ v, o k = some v → resolveConfig f e (some o) k = some v) ∧
    (o k = none → ∀ v, e k = some v → resolveConfig f e (some o) k = some v) ∧
    (o k = none → e k = none → resolveConfig f e (some o) k = f k) ∧
    (∀ v, e k = some v → resolveConfig f e none k = some v) ∧
    (e k = none → resolveConfig f e none k = f k) ∧
    (∀ v, i k = some v → mergeItemConfig g i k = some v) ∧
    (i k = none → mergeItemConfig g i k = g k) := by
  unfold resolveConfig mergeItemConfig updateDict emptyDict
  refine ⟨?_, ?_, ?_, ?_, ?_, ?_, ?_⟩ <;> intros <;>
    (try cases hf : f k) <;> simp_all

theorem config_precedence_amended_witness :
    resolveConfig fileNoneC explicitC (some overrideC) "font-size" = some 20 ∧
    mergeItemConfig explicitC overrideC "font-size" = some 20 := by
  refine ⟨?_, ?_⟩
  · exact (config_precedence_amended fileNoneC explicitC overrideC explicitC overrideC
      "font-size").1 20 (by decide)
  · exact (config_precedence_amended fileNoneC explicitC overrideC explicitC overrideC
      "font-size").2.2.2.2.2.1 20 (by decide)

/-! ## C3: crop-policy mutual exclusivity -/

/-- C3: for every rasterized page exactly one crop policy applies: when
the content-crop flag is set the crop stage is exactly the content crop,
whatever the two axis-crop flags are — the axis-crop logic (width trim
and last-page vertical trim) does not additionally modify the image;
with the flag unset the stage is exactly the axis crop. -/
theorem crop_policy_exclusive (img : GrayImage) (acw acl : Bool)
    (pageIndex numPages marginX marginY : Nat) :
    cropStage img true acw acl pageIndex numPages marginX marginY = contentCrop img ∧
    cropStage img false acw acl pageIndex numPages marginX marginY =
      axisCrop img acw acl pageIndex numPages marginX marginY :=
  ⟨rfl, rfl⟩

/-! ## Helper lemmas about foreground rows and columns -/

lemma mem_fgRows_lt (img : GrayImage) (bg2 tol : Nat) {r : Nat}
    (h : r ∈ fgRows img bg2 tol) : r < img.height :=
  List.mem_range.1 (List.mem_filter.1 h).1

lemma mem_fgCols_lt (img : GrayImage) (bg2 tol : Nat) {c : Nat}
    (h : c ∈ fgCols img bg2 tol) : c < img.width :=
  List.mem_range.1 (List.mem_filter.1 h).1

lemma fgRows_pairwise (img : GrayImage) (bg2 tol : Nat) :
    (fgRows img bg2 tol).Pairwise (· ≤ ·) :=
  ((List.pairwise_lt_range _).imp (fun h => Nat.le_of_lt h)).filter _

lemma fgCols_pairwise (img : GrayImage) (bg2 tol : Nat) :
    (fgCols img bg2 tol).Pairwise (· ≤ ·) :=
  ((List.pairwise_lt_range _).imp (fun h => Nat.le_of_lt h)).filter _

lemma headD_mem_of_ne_nil {l : List Nat} (h : l ≠ []) : l.headD 0 ∈ l := by
  cases l with
  | nil => exact absurd rfl h
  | cons a t => simp

lemma getLastD_mem_cons : ∀ (t : List Nat) (a : Nat), t.getLastD a ∈ a :: t := by
  intro t
  induction t with
  | nil => intro a; simp
  | cons b t ih =>
    intro a
    rw [List.getLastD_cons]
    exact List.mem_cons_of_mem a (ih b)

lemma getLastD_mem_of_ne_nil {l : List Nat} (h : l ≠ []) : l.getLastD 0 ∈ l := by
  cases l with
  | nil => exact absurd rfl h
  | cons a t =>
    rw [List.getLastD_cons]
    exact getLastD_mem_cons t a

lemma headD_le_getLastD {l : List Nat} (hp : l.Pairwise (· ≤ ·)) (h : l ≠ []) :
    l.headD 0 ≤ l.getLastD 0 := by
  cases l with
  | nil => exact absurd rfl h
  | cons a t =>
    rw [List.headD_cons, List.getLastD_cons]
    rcases List.mem_cons.1 (getLastD_mem_cons t a) with heq | hmem
    · rw [heq]
    · exact (List.pairwise_cons.1 hp).1 _ hmem

/-! ## C4: content-crop containment -/

/-- C4 counterexample: the foreground of `singleDotImage` lies exactly
within rows [12,12] and columns [12,12]; the bounding box expanded by
the 10-pixel margin on all four sides and clipped at the page edges
spans rows 2..22 — 21 rows — but the content-crop output is only 20
pixels tall (and wide): `bottom = rows[-1] + 10` is an exclusive PIL
bound, so the bottom (and right) margin is effectively 9 pixels. -/
theorem content_crop_counterexample :
    fgRows singleDotImage (bgGray2 singleDotImage 10) 8 = [12] ∧
    fgCols singleDotImage (bgGray2 singleDotImage 10) 8 = [12] ∧
    (contentCrop singleDotImage).height = 20 ∧
    (contentCrop singleDotImage).width = 20 ∧
    ¬(21 ≤ (contentCrop singleDotImage).height) := by
  refine ⟨by decide, by decide, by decide, by decide, by decide⟩

/-- C4 amended: with `r1, r2` (`c1, c2`) the first and last foreground
rows (columns) of the page, the content-crop output is the region with
rows `[r1 - 10, min height (r2 + 10))` and columns
`[c1 - 10, min width (c2 + 10))`: it contains the foreground bounding
box expanded by 10 pixels on the top and left but only 9 pixels on the
bottom and right (clipped at the page edges), and its dimensions never
exceed the original page dimensions. -/
theorem content_crop_containment (img : GrayImage) (r1 r2 c1 c2 : Nat)
    (hrne : fgRows img (bgGray2 img 10) 8 ≠ [])
    (hcne : fgCols img (bgGray2 img 10) 8 ≠ [])
    (hr1 : (fgRows img (bgGray2 img 10) 8).headD 0 = r1)
    (hr2 : (fgRows img (bgGray2 img 10) 8).getLastD 0 = r2)
    (hc1 : (fgCols img (bgGray2 img 10) 8).headD 0 = c1)
    (hc2 : (fgCols img (bgGray2 img 10) 8).getLastD 0 = c2) :
    (contentCrop img).width ≤ img.width ∧
    (contentCrop img).height ≤ img.height ∧
    (contentCrop img).width = min img.width (c2 + 10) - (c1 - 10) ∧
    (contentCrop img).height = min img.height (r2 + 10) - (r1 - 10) ∧
    (∀ r c, r1 - 10 ≤ r → r < min img.height (r2 + 10) →
      c1 - 10 ≤ c → c < min img.width (c2 + 10) →
      (contentCrop img).px (r - (r1 - 10)) (c - (c1 - 10)) = img.px r c) := by
  subst hr1 hr2 hc1 hc2
  have hr12 : (fgRows img (bgGray2 img 10) 8).headD 0 ≤
      (fgRows img (bgGray2 img 10) 8).getLastD 0 :=
    headD_le_getLastD (fgRows_pairwise img _ 8) hrne
  have hc12 : (fgCols img (bgGray2 img 10) 8).headD 0 ≤
      (fgCols img (bgGray2 img 10) 8).getLastD 0 :=
    headD_le_getLastD (fgCols_pairwise img _ 8) hcne
  have hr1h : (fgRows img (bgGray2 img 10) 8).headD 0 < img.height :=
    mem_fgRows_lt img _ 8 (headD_mem_of_ne_nil hrne)
  have hr2h : (fgRows img (bgGray2 img 10) 8).getLastD 0 < img.height :=
    mem_fgRows_lt img _ 8 (getLastD_mem_of_ne_nil hrne)
  have hc1w : (fgCols img (bgGray2 img 10) 8).headD 0 < img.width :=
    mem_fgCols_lt img _ 8 (headD_mem_of_ne_nil hcne)
  have hc2w : (fgCols img (bgGray2 img 10) 8).getLastD 0 < img.width :=
    mem_fgCols_lt img _ 8 (getLastD_mem_of_ne_nil hcne)
  have hvalid : (fgRows img (bgGray2 img 10) 8).headD 0 - 10 <
      min img.height ((fgRows img (bgGray2 img 10) 8).getLastD 0 + 10) ∧
      (fgCols img (bgGray2 img 10) 8).headD 0 - 10 <
      min img.width ((fgCols img (bgGray2 img 10) 8).getLastD 0 + 10) := by omega
  simp only [contentCrop]
  rw [if_pos ⟨hrne, hcne⟩, if_pos hvalid]
  simp only [cropImg]
  refine ⟨by omega, by omega, by trivial, by trivial, ?_⟩
  intro r c h1 h2 h3 h4
  have hrr : (fgRows img (bgGray2 img 10) 8).headD 0 - 10 +
      (r - ((fgRows img (bgGray2 img 10) 8).headD 0 - 10)) = r := by omega
  have hcc : (fgCols img (bgGray2 img 10) 8).headD 0 - 10 +
      (c - ((fgCols img (bgGray2 img 10) 8).headD 0 - 10)) = c := by omega
  rw [hrr, hcc]

theorem content_crop_containment_witness :
    (contentCrop singleDotImage).width ≤ singleDotImage.width ∧
    (contentCrop singleDotImage).px (12 - (12 - 10)) (12 - (12 - 10)) =
      singleDotImage.px 12 12 := by
  have hfr : fgRows singleDotImage (bgGray2 singleDotImage 10) 8 = [12] := by decide
  have hfc : fgCols singleDotImage (bgGray2 singleDotImage 10) 8 = [12] := by decide
  have h := content_crop_containment singleDotImage 12 12 12 12
    (by rw [hfr]; simp) (by rw [hfc]; simp)
    (by rw [hfr]; rfl) (by rw [hfr]; rfl) (by rw [hfc]; rfl) (by rw [hfc]; rfl)
  exact ⟨h.1, h.2.2.2.2 12 12 (by decide) (by decide) (by decide) (by decide)⟩

/-! ## C6: axis-crop dimensions -/

/-- C6 counterexample: on `singleDotImage` the rightmost foreground
column under the axis-crop mask is 12, and with horizontal margin 5 the
claim predicts width `min(23, 12 + 5) = 17`, but the code computes
`rightmost_col = cols[-1] + 1` first, so the width-trimmed image is
`min(23, 12 + 1 + 5) = 18` pixels wide. -/
theorem axis_crop_counterexample :
    fgCols singleDotImage (bgGray2 singleDotImage 2) 5 = [12] ∧
    (axisCrop singleDotImage true false 1 2 5 5).width = 18 ∧
    ¬((axisCrop singleDotImage true false 1 2 5 5).width =
      min singleDotImage.width (12 + 5)) := by
  refine ⟨by decide, by decide, by decide⟩

/-- C6 amended: with `c2` (`r2`) the rightmost foreground column
(bottommost foreground row), width trim on any page crops the width to
`min(width, (c2 + 1) + marginX)` — one more than the claim's
`c2 + marginX` — leaving the height unchanged; vertical trim applies
only when the page index equals the total page count and crops the
height to `min(height, r2 + marginY)` leaving the width unchanged;
pages other than the last never have their height trimmed. -/
theorem axis_crop_dims (img : GrayImage) (acw acl : Bool)
    (pageIndex numPages marginX marginY : Nat) (c2 r2 : Nat)
    (hcne : fgCols img (bgGray2 img 2) 5 ≠ [])
    (hrne : fgRows img (bgGray2 img 2) 5 ≠ [])
    (hc2 : (fgCols img (bgGray2 img 2) 5).getLastD 0 = c2)
    (hr2 : (fgRows img (bgGray2 img 2) 5).getLastD 0 = r2) :
    (axisCrop img acw acl pageIndex numPages marginX marginY).width =
      (if acw then min img.width (c2 + 1 + marginX) else img.width) ∧
    (axisCrop img acw acl pageIndex numPages marginX marginY).height =
      (if acl && (pageIndex == numPages) then min img.height (r2 + marginY)
       else img.height) := by
  subst hc2 hr2
  unfold axisCrop
  cases acw <;> cases hlast : (acl && (pageIndex == numPages)) <;>
    simp_all [cropImg]

theorem axis_crop_dims_witness :
    (axisCrop singleDotImage true true 3 3 5 7).width =
      min singleDotImage.width (12 + 1 + 5) ∧
    (axisCrop singleDotImage true true 3 3 5 7).height =
      min singleDotImage.height (12 + 7) := by
  have hc : fgCols singleDotImage (bgGray2 singleDotImage 2) 5 = [12] := by decide
  have hr : fgRows singleDotImage (bgGray2 singleDotImage 2) 5 = [12] := by decide
  have h := axis_crop_dims singleDotImage true true 3 3 5 7 12 12
    (by rw [hc]; simp) (by rw [hr]; simp) (by rw [hc]; rfl) (by rw [hr]; rfl)
  exact ⟨by simpa using h.1, by simpa using h.2⟩

/-! ## C7: blank pages are never cropped -/

lemma fgRows_eq_nil (img : GrayImage) (bg2 tol : Nat)
    (h : ∀ r < img.height, ∀ c < img.width, fgMask img bg2 tol r c = false) :
    fgRows img bg2 tol = [] := by
  rw [List.eq_nil_iff_forall_not_mem]
  intro r hmem
  have h1 := List.mem_filter.1 hmem
  rw [List.any_eq_true] at h1
  obtain ⟨c, hc, hmask⟩ := h1.2
  have := h r (List.mem_range.1 h1.1) c (List.mem_range.1 hc)
  simp [this] at hmask

lemma fgCols_eq_nil (img : GrayImage) (bg2 tol : Nat)
    (h : ∀ r < img.height, ∀ c < img.width, fgMask img bg2 tol r c = false) :
    fgCols img bg2 tol = [] := by
  rw [List.eq_nil_iff_forall_not_mem]
  intro c hmem
  have h1 := List.mem_filter.1 hmem
  rw [List.any_eq_true] at h1
  obtain ⟨r, hr, hmask⟩ := h1.2
  have := h r (List.mem_range.1 hr) c (List.mem_range.1 h1.1)
  simp [this] at hmask

/-- C7: on a page with zero foreground pixels (under the respective
background estimate and tolerance of each policy) no crop is applied:
content crop, axis crop (width trim and last-page vertical trim) and
hence the whole crop stage return the page unmodified, for any flags,
page position and margins. -/
theorem blank_page_noop (img : GrayImage) (content acw acl : Bool)
    (pageIndex numPages marginX marginY : Nat)
    (hblankContent : ∀ r < img.height, ∀ c < img.width,
      fgMask img (bgGray2 img 10) 8 r c = false)
    (hblankAxis : ∀ r < img.height, ∀ c < img.width,
      fgMask img (bgGray2 img 2) 5 r c = false) :
    contentCrop img = img ∧
    axisCrop img acw acl pageIndex numPages marginX marginY = img ∧
    cropStage img content acw acl pageIndex numPages marginX marginY = img := by
  have h8r := fgRows_eq_nil img (bgGray2 img 10) 8 hblankContent
  have h5r := fgRows_eq_nil img (bgGray2 img 2) 5 hblankAxis
  have h5c := fgCols_eq_nil img (bgGray2 img 2) 5 hblankAxis
  have hcc : contentCrop img = img := by
    unfold contentCrop
    simp [h8r]
  have hac : axisCrop img acw acl pageIndex numPages marginX marginY = img := by
    unfold axisCrop
    simp [h5r, h5c]
  refine ⟨hcc, hac, ?_⟩
  cases content
  · simpa [cropStage] using hac
  · simpa [cropStage] using hcc

theorem blank_page_noop_witness :
    contentCrop blankImage = blankImage ∧
    axisCrop blankImage true true 1 1 20 20 = blankImage ∧
    cropStage blankImage false true true 1 1 20 20 = blankImage :=
  blank_page_noop blankImage false true true 1 1 20 20 (by decide) (by decide)

/-! ## C8: text normalization -/

lemma clean_removeControlChars (s : List Char) :
    ∀ c ∈ removeControlChars s, c ≠ softHyphen ∧ c ≠ zeroWidthSpace := by
  intro c hc
  unfold removeControlChars at hc
  have h1 := List.mem_filter.1 hc
  have h2 := List.mem_filter.1 h1.1
  constructor
  · simpa using h2.2
  · simpa using h1.2

lemma clean_escapeChar (a c : Char) (ha : a ≠ softHyphen ∧ a ≠ zeroWidthSpace)
    (hc : c ∈ escapeChar a) : c ≠ softHyphen ∧ c ≠ zeroWidthSpace := by
  unfold escapeChar at hc
  split at hc
  · simp at hc
    rcases hc with rfl | rfl | rfl | rfl | rfl <;> exact ⟨by decide, by decide⟩
  · split at hc
    · simp at hc
      rcases hc with rfl | rfl | rfl | rfl <;> exact ⟨by decide, by decide⟩
    · split at hc
      · simp at hc
        rcases hc with rfl | rfl | rfl | rfl <;> exact ⟨by decide, by decide⟩
      · simp at hc
        subst hc
        exact ha

lemma clean_escapeMarkup (s : List Char)
    (h : ∀ c ∈ s, c ≠ softHyphen ∧ c ≠ zeroWidthSpace) :
    ∀ c ∈ escapeMarkup s, c ≠ softHyphen ∧ c ≠ zeroWidthSpace := by
  intro c hc
  unfold escapeMarkup at hc
  rw [List.mem_flatMap] at hc
  obtain ⟨a, ha, hca⟩ := hc
  exact clean_escapeChar a c (h a ha) hca

lemma clean_emitSpaces (n : Nat) :
    ∀ c ∈ emitSpaces n, c ≠ softHyphen ∧ c ≠ zeroWidthSpace := by
  intro c hc
  unfold emitSpaces at hc
  split at hc
  · unfold nbspRun at hc
    rw [List.mem_flatten] at hc
    obtain ⟨l, hl, hcl⟩ := hc
    rw [List.eq_of_mem_replicate hl] at hcl
    simp at hcl
    rcases hcl with rfl | rfl | rfl | rfl | rfl | rfl <;> exact ⟨by decide, by decide⟩
  · rw [List.eq_of_mem_replicate hc]
    exact ⟨by decide, by decide⟩

lemma clean_replaceSpacesAux : ∀ (l : List Char) (n : Nat),
    (∀ c ∈ l, c ≠ softHyphen ∧ c ≠ zeroWidthSpace) →
    ∀ c ∈ replaceSpacesAux l n, c ≠ softHyphen ∧ c ≠ zeroWidthSpace := by
  intro l
  induction l with
  | nil =>
    intro n _ c hc
    exact clean_emitSpaces n c hc
  | cons a t ih =>
    intro n h c hc
    unfold replaceSpacesAux at hc
    split at hc
    · exact ih (n + 1) (fun x hx => h x (List.mem_cons_of_mem a hx)) c hc
    · rw [List.mem_append] at hc
      rcases hc with hc | hc
      · exact clean_emitSpaces n c hc
      · rcases List.mem_cons.1 hc with rfl | hc
        · exact h c (List.mem_cons_self c t)
        · exact ih 0 (fun x hx => h x (List.mem_cons_of_mem a hx)) c hc

lemma mem_of_mem_splitNl : ∀ (s line : List Char),
    line ∈ splitNl s → ∀ c ∈ line, c ∈ s := by
  intro s
  induction s with
  | nil =>
    intro line hl c hc
    simp [splitNl] at hl
    subst hl
    simp at hc
  | cons a t ih =>
    intro line hl c hc
    unfold splitNl at hl
    split at hl
    · rcases List.mem_cons.1 hl with rfl | hl
      · simp at hc
      · exact List.mem_cons_of_mem a (ih line hl c hc)
    · cases hst : splitNl t with
      | nil =>
        rw [hst] at hl
        simp at hl
        subst hl
        simp at hc
        subst hc
        exact List.mem_cons_self _ _
      | cons l ls =>
        rw [hst] at hl
        rcases List.mem_cons.1 hl with rfl | hl
        · rcases List.mem_cons.1 hc with rfl | hc
          · exact List.mem_cons_self c t
          · have hct : c ∈ t :=
              ih l (by rw [hst]; exact List.mem_cons_self l ls) c hc
            exact List.mem_cons_of_mem a hct
        · have hct : c ∈ t :=
            ih line (by rw [hst]; exact List.mem_cons_of_mem l hl) c hc
          exact List.mem_cons_of_mem a hct

/-- C8: normalization is the deterministic composition of, in order,
soft-hyphen/zero-width-space removal, markup escaping of the characters
`&`, `<`, `>`, replacement of every run of 2 or more literal spaces by
an equal-length run of non-breaking-space markers (a single space stays
an ordinary breakable space), and splitting on line breaks: no control
character survives into any logical line, `a  b   c` (2 then 3 spaces)
yields exactly 2 then 3 markers, a single space is preserved, and the
markup characters are escaped before the newline split. -/
theorem normalize_spec :
    (∀ (s line : List Char), line ∈ normalizeText s →
      softHyphen ∉ line ∧ zeroWidthSpace ∉ line) ∧
    normalizeText (("a  b   c").toList) =
      [('a' :: nbspRun 2) ++ ('b' :: nbspRun 3) ++ ['c']] ∧
    normalizeText (("a b").toList) = [("a b").toList] ∧
    normalizeText (("x&y\nz<w>").toList) =
      [("x&amp;y").toList, ("z&lt;w&gt;").toList] := by
  refine ⟨?_, by decide, by decide, by decide⟩
  intro s line hline
  unfold normalizeText at hline
  have h2 := clean_escapeMarkup _ (clean_removeControlChars s)
  have h3 := clean_replaceSpacesAux _ 0 h2
  constructor
  · intro hmem
    exact (h3 softHyphen (mem_of_mem_splitNl _ line hline softHyphen hmem)).1 rfl
  · intro hmem
    exact (h3 zeroWidthSpace (mem_of_mem_splitNl _ line hline zeroWidthSpace hmem)).2 rfl

theorem normalize_spec_witness :
    ("ab").toList ∈ normalizeText ('a' :: softHyphen :: zeroWidthSpace :: ['b']) ∧
    softHyphen ∉ ("ab").toList :=
  ⟨by decide, (normalize_spec.1 ('a' :: softHyphen :: zeroWidthSpace :: ['b'])
    (("ab").toList) (by decide)).1⟩

/-! ## C9: output file naming and ordering -/

lemma rasterPages_eq_range' : ∀ (n start total : Nat), total + 1 - start ≤ n →
    rasterPages start total = List.range' start (total + 1 - start) := by
  intro n
  induction n with
  | zero =>
    intro s t h
    unfold rasterPages
    rw [dif_neg (by omega), show t + 1 - s = 0 from by omega]
    rfl
  | succ n ih =>
    intro s t h
    unfold rasterPages
    by_cases hst : s ≤ t
    · rw [dif_pos hst]
      show List.range' s (min (s + 19) t + 1 - s) ++
        rasterPages (min (s + 19) t + 1) t = List.range' s (t + 1 - s)
      have hes : s ≤ min (s + 19) t := by omega
      rw [ih (min (s + 19) t + 1) t (by omega)]
      have happ := List.range'_append s (min (s + 19) t + 1 - s)
        (t + 1 - (min (s + 19) t + 1)) 1
      rw [show s + 1 * (min (s + 19) t + 1 - s) = min (s + 19) t + 1 from by omega]
        at happ
      rw [happ, show t + 1 - (min (s + 19) t + 1) + (min (s + 19) t + 1 - s) =
        t + 1 - s from by omega]
    · rw [dif_neg hst, show t + 1 - s = 0 from by omega]
      rfl

set_option maxRecDepth 4000 in
lemma decRepr_length_le (n : Nat) (h : n < 1000) : (decRepr n).length ≤ 3 := by
  have : ∀ m < 1000, (Nat.toDigits 10 m).length ≤ 3 := by decide
  exact this n h

/-- C9 counterexample: `f"page_{offset:03d}.png"` zero-fills only up to a
minimum width of 3, so the 1-based page index 1000 is rendered with four
digits, not exactly three. -/
theorem page_name_counterexample :
    pageFileName 1000 = ("page_1000.png").toList ∧ ¬((pad3 1000).length = 3) := by
  refine ⟨by decide, by decide⟩

lemma isAbsolutePath_absPath (cwd p : List Char)
    (h : isAbsolutePath cwd = true) : isAbsolutePath (absPath cwd p) = true := by
  unfold absPath
  split
  next hp => exact hp
  next =>
    cases cwd with
    | nil => simp [isAbsolutePath] at h
    | cons c t => simpa [isAbsolutePath] using h

/-- C9 amended: for every processed item the persisted output files are
`outputDir/<identifier>/page_<NNN>.png` with the 1-based page index
zero-padded to at least 3 digits (exactly 3 for the first 999 pages;
larger indices keep their full decimal form), and the returned path list
has exactly one entry per output page, in ascending page-index order,
each entry the joined path passed through `os.path.abspath` — hence an
absolute path, the process working directory being absolute. -/
theorem page_paths_amended (cwd d id : List Char) (total k : Nat)
    (hk : k < total) (hcwd : isAbsolutePath cwd = true) :
    (imagePaths cwd d id total).length = total ∧
    (imagePaths cwd d id total).getD k [] =
      absPath cwd (d ++ '/' :: id ++ '/' :: pageFileName (k + 1)) ∧
    isAbsolutePath ((imagePaths cwd d id total).getD k []) = true ∧
    (k + 1 < 1000 → (pad3 (k + 1)).length = 3) := by
  have hr : rasterPages 1 total = List.range' 1 total := by
    have := rasterPages_eq_range' (total + 1) 1 total (by omega)
    simpa using this
  have hentry : (imagePaths cwd d id total).getD k [] =
      absPath cwd (d ++ '/' :: id ++ '/' :: pageFileName (k + 1)) := by
    rw [imagePaths, hr, List.getD_eq_getElem?_getD, List.getElem?_map,
      List.getElem?_range' 1 1 hk]
    simp [Nat.add_comm 1 k]
  refine ⟨?_, hentry, ?_, ?_⟩
  · simp [imagePaths, hr]
  · rw [hentry]
    exact isAbsolutePath_absPath cwd _ hcwd
  · intro h1000
    have hlen := decRepr_length_le (k + 1) h1000
    simp only [pad3, List.length_append, List.length_replicate]
    omega

theorem page_paths_amended_witness :
    (imagePaths (("/home").toList) (("out").toList) (("doc1").toList) 25).length = 25 ∧
    (imagePaths (("/home").toList) (("out").toList) (("doc1").toList) 25).getD 20 [] =
      absPath (("/home").toList)
        (("out").toList ++ '/' :: ("doc1").toList ++ '/' :: pageFileName 21) ∧
    isAbsolutePath ((imagePaths (("/home").toList) (("out").toList)
      (("doc1").toList) 25).getD 20 []) = true ∧
    (pad3 21).length = 3 := by
  have h := page_paths_amended (("/home").toList) (("out").toList) (("doc1").toList)
    25 20 (by decide) (by decide)
  exact ⟨h.1, h.2.1, h.2.2.1, h.2.2.2 (by decide)⟩

/-! ## Orchestrator lemmas -/

lemma processOne_skip {V : Type} (render : RenderFn V) (g : Dict V) (fs : FS)
    (item : Item V) (id : String) (hid : item.unique_id = some id)
    (hne : id ≠ "") (hex : (fs id).isSome = true) :
    processOne render g true fs item =
      Except.ok (fs, ⟨item.unique_id, item.context, item.config, []⟩) := by
  simp only [processOne, hid]
  rw [if_neg hne, if_pos (by simp [hex])]

lemma processOne_true_preserves {V : Type} (render : RenderFn V) (g : Dict V)
    (fs : FS) (item : Item V) (fs' : FS) (item' : Item V)
    (h : processOne render g true fs item = Except.ok (fs', item')) :
    ∀ id, (fs id).isSome = true → fs' id = fs id := by
  intro id hex
  simp only [processOne] at h
  split at h
  · exact absurd h (by simp)
  next id0 hid =>
    split at h
    · exact absurd h (by simp)
    · split at h
      · injection h with hh
        injection hh with hfs _
        rw [← hfs]
      · split at h
        · exact absurd h (by simp)
        next hskip _ =>
          injection h with hh
          injection hh with hfs _
          rw [← hfs]
          unfold fsInsert
          by_cases hid2 : id = id0
          · subst hid2
            exact absurd hex (by simpa using hskip)
          · rw [if_neg hid2]

lemma processOne_ok_frame {V : Type} (render : RenderFn V) (g : Dict V)
    (rec : Bool) (fs : FS) (item : Item V) (fs' : FS) (item' : Item V)
    (h : processOne render g rec fs item = Except.ok (fs', item')) :
    item'.unique_id = item.unique_id ∧
    (∀ id, (fs' id).isSome = true →
      (fs id).isSome = true ∨ item.unique_id = some id) := by
  simp only [processOne] at h
  split at h
  · exact absurd h (by simp)
  next id0 hid =>
    split at h
    · exact absurd h (by simp)
    · split at h
      · injection h with hh
        injection hh with hfs hit
        constructor
        · rw [← hit]
        · intro id hex
          rw [← hfs] at hex
          exact Or.inl hex
      · split at h
        · exact absurd h (by simp)
        · injection h with hh
          injection hh with hfs hit
          constructor
          · rw [← hit]
          · intro id hex
            rw [← hfs] at hex
            unfold fsInsert at hex
            by_cases hid2 : id = id0
            · subst hid2
              exact Or.inr hid
            · rw [if_neg hid2] at hex
              exact Or.inl hex

lemma runItems_true_preserves {V : Type} (render : RenderFn V) (g : Dict V) :
    ∀ (l : List (Item V)) (fs : FS) (acc : List (Item V))
      (out : FS × List (Item V)),
      runItems render g true fs acc l = Except.ok out →
      ∀ id, (fs id).isSome = true → out.1 id = fs id := by
  intro l
  induction l with
  | nil =>
    intro fs acc out h id hex
    simp only [runItems] at h
    injection h with hh
    rw [← hh]
  | cons item rest ih =>
    intro fs acc out h id hex
    simp only [runItems] at h
    cases hp : processOne render g true fs item with
    | error e =>
      rw [hp] at h
      exact absurd h (by simp)
    | ok p =>
      obtain ⟨fs', item'⟩ := p
      rw [hp] at h
      have hpres := processOne_true_preserves render g fs item fs' item' hp id hex
      have hex' : (fs' id).isSome = true := by rw [hpres]; exact hex
      rw [ih fs' (acc ++ [item']) out h id hex', hpres]

lemma runItems_scope {V : Type} (render : RenderFn V) (g : Dict V) (rec : Bool) :
    ∀ (l : List (Item V)) (fs : FS) (acc : List (Item V))
      (out : FS × List (Item V)),
      runItems render g rec fs acc l = Except.ok out →
      (∀ id, (out.1 id).isSome = true →
        (fs id).isSome = true ∨ some id ∈ l.map (fun it => it.unique_id)) ∧
      (∀ e ∈ out.2, e ∈ acc ∨ e.unique_id ∈ l.map (fun it => it.unique_id)) := by
  intro l
  induction l with
  | nil =>
    intro fs acc out h
    simp only [runItems] at h
    injection h with hh
    subst hh
    exact ⟨fun id hex => Or.inl hex, fun e he => Or.inl he⟩
  | cons item rest ih =>
    intro fs acc out h
    simp only [runItems] at h
    cases hp : processOne render g rec fs item with
    | error e =>
      rw [hp] at h
      exact absurd h (by simp)
    | ok p =>
      obtain ⟨fs', item'⟩ := p
      rw [hp] at h
      have hframe := processOne_ok_frame render g rec fs item fs' item' hp
      have hrec := ih fs' (acc ++ [item']) out h
      constructor
      · intro id hex
        rcases hrec.1 id hex with hex' | hmem
        · rcases hframe.2 id hex' with hex'' | hid
          · exact Or.inl hex''
          · exact Or.inr (by simp [← hid])
        · exact Or.inr (by simp; right; simpa using hmem)
      · intro e he
        rcases hrec.2 e he with hacc | hmem
        · rcases List.mem_append.1 hacc with hacc' | hsing
          · exact Or.inl hacc'
          · have : e = item' := by simpa using hsing
            subst this
            exact Or.inr (by simp [hframe.1])
        · exact Or.inr (by simp; right; simpa using hmem)

lemma mem_map_of_mem_filter_map {V : Type} (p : Item V → Bool)
    (items : List (Item V)) {x : Option String}
    (h : x ∈ (items.filter p).map (fun it => it.unique_id)) :
    x ∈ items.map (fun it => it.unique_id) := by
  obtain ⟨it, hit, hx⟩ := List.mem_map.1 h
  exact List.mem_map.2 ⟨it, (List.mem_filter.1 hit).1, hx⟩

/-! ## C1: recovery-mode skip and idempotent resume -/

/-- C1: with recovery mode on, an item whose dedicated output
subdirectory already exists is skipped without invoking the rendering
chain at all (the result holds for every rendering function and leaves
the filesystem untouched, with `image_paths` set to `[]`); consequently
a whole recovery-mode batch run leaves the output subdirectory of every
identifier that already existed before the run byte-identical. -/
theorem recover_skip_and_preserve {V : Type} :
    (∀ (render : RenderFn V) (g : Dict V) (fs : FS) (item : Item V) (id : String),
      item.unique_id = some id → id ≠ "" → (fs id).isSome = true →
      processOne render g true fs item =
        Except.ok (fs, ⟨item.unique_id, item.context, item.config, []⟩)) ∧
    (∀ (render : RenderFn V) (g : Dict V) (fs0 : FS)
      (ledger0 items : List (Item V)) (out : FS × List (Item V)),
      batchRun render g true fs0 ledger0 items = Except.ok out →
      ∀ id : String, (fs0 id).isSome = true → out.1 id = fs0 id) := by
  constructor
  · intro render g fs item id hid hne hex
    exact processOne_skip render g fs item id hid hne hex
  · intro render g fs0 l0 items out hrun id hex
    simp only [batchRun, if_pos] at hrun
    cases hri : runItems render g true fs0 []
        (items.filter (fun it => !((l0.map (fun it => it.unique_id)).contains
          it.unique_id))) with
    | error e =>
      rw [hri] at hrun
      exact absurd hrun (by simp)
    | ok p =>
      obtain ⟨fs', results⟩ := p
      rw [hri] at hrun
      injection hrun with hh
      have h1 := runItems_true_preserves render g _ fs0 [] (fs', results) hri id hex
      rw [← hh]
      exact h1

theorem recover_skip_and_preserve_witness :
    processOne renderC gC true fsC itemA =
      Except.ok (fsC, ⟨some ("a"), "hello", none, []⟩) ∧
    outBatchC.1 "a" = fsC "a" := by
  constructor
  · exact (recover_skip_and_preserve (V := Nat)).1 renderC gC fsC itemA "a" rfl
      (by decide) (by decide)
  · exact (recover_skip_and_preserve (V := Nat)).2 renderC gC fsC [] [itemA]
      outBatchC rfl "a" (by decide)

/-! ## C5: item-level failures abort the batch -/

/-- C5 counterexample: a batch containing an invalid first item (missing
identifier) followed by a perfectly processable second item does not
surface an item-level failure and continue — the worker's assertion
error propagates through the result stream and the whole run aborts
with no results at all, even though the second item alone would have
succeeded. -/
theorem item_failure_counterexample :
    batchRun renderC gC false (fun _ => none) []
      [⟨none, "hello", none, []⟩, itemB] = Except.error ProcError.assertId ∧
    processOne renderC gC false (fun _ => none) itemB =
      Except.ok (fsInsert (fun _ => none) "b" ["pg"],
        ⟨some ("b"), "hi", none, ["pg"]⟩) :=
  ⟨rfl, rfl⟩

/-- C5 amended: an item-level failure (missing identifier, or empty
content when the item is not skipped) raises out of the worker as an
assertion error; the error propagates through the orchestrator's result
stream and aborts the whole batch, so the remaining items are not
processed and no results are produced. -/
theorem item_failure_aborts {V : Type} :
    (∀ (render : RenderFn V) (g : Dict V) (rec : Bool) (fs : FS) (item : Item V),
      item.unique_id = none →
      processOne render g rec fs item = Except.error ProcError.assertId) ∧
    (∀ (render : RenderFn V) (g : Dict V) (rec : Bool) (fs : FS) (item : Item V)
      (id : String),
      item.unique_id = some id → id ≠ "" → (rec && (fs id).isSome) = false →
      item.context = "" →
      processOne render g rec fs item = Except.error ProcError.assertText) ∧
    (∀ (render : RenderFn V) (g : Dict V) (fs0 : FS) (ledger0 : List (Item V))
      (bad : Item V) (rest : List (Item V)),
      bad.unique_id = none →
      batchRun render g false fs0 ledger0 (bad :: rest) =
        Except.error ProcError.assertId) := by
  refine ⟨?_, ?_, ?_⟩
  · intro render g rec fs item hid
    simp only [processOne, hid]
  · intro render g rec fs item id hid hne hskip hctx
    simp only [processOne, hid]
    rw [if_neg hne, if_neg (by simp [hskip]), if_pos hctx]
  · intro render g fs0 l0 bad rest hbad
    have hb : processOne render g false (fun _ => none) bad =
        Except.error ProcError.assertId := by
      simp only [processOne, hbad]
    simp [batchRun, runItems, hb]

theorem item_failure_aborts_witness :
    processOne renderC gC true fsC (⟨none, "x", none, []⟩ : Item Nat) =
      Except.error ProcError.assertId ∧
    processOne renderC gC false fsC (⟨some ("e"), "", none, []⟩ : Item Nat) =
      Except.error ProcError.assertText ∧
    batchRun renderC gC false fsC [] ((⟨none, "x", none, []⟩ : Item Nat) :: [itemA]) =
      Except.error ProcError.assertId := by
  refine ⟨?_, ?_, ?_⟩
  · exact (item_failure_aborts (V := Nat)).1 renderC gC true fsC _ rfl
  · exact (item_failure_aborts (V := Nat)).2.1 renderC gC false fsC _ "e" rfl
      (by decide) (by decide) rfl
  · exact (item_failure_aborts (V := Nat)).2.2 renderC gC fsC [] _ [itemA] rfl

/-! ## C10: a non-recovery run starts from a clean slate -/

/-- C10: starting a batch run with recovery mode off first deletes the
whole pre-existing output directory tree and removes the existing
ledger file, before any item is processed: the run's outcome is
completely independent of the prior output tree and ledger contents,
and afterwards every existing output subdirectory and every ledger
entry belongs to an identifier of the current run's input items. -/
theorem nonrecover_cleanup {V : Type}
    (render : RenderFn V) (g : Dict V) (fs0 fs0' : FS) (l0 l0' : List (Item V))
    (items : List (Item V)) (out : FS × List (Item V)) :
    (batchRun render g false fs0 l0 items = batchRun render g false fs0' l0' items) ∧
    (batchRun render g false fs0 l0 items = Except.ok out →
      (∀ id : String, (out.1 id).isSome = true →
        some id ∈ items.map (fun it => it.unique_id)) ∧
      (∀ e ∈ out.2, e.unique_id ∈ items.map (fun it => it.unique_id))) := by
  constructor
  · rfl
  · intro hrun
    have hclean : batchRun render g false fs0 l0 items =
        match runItems render g false (fun _ => none) []
          (items.filter (fun it => !(([] : List (Item V)).map
            (fun it => it.unique_id)).contains it.unique_id)) with
        | Except.error e => Except.error e
        | Except.ok (fs', results) => Except.ok (fs', [] ++ results) := rfl
    rw [hclean] at hrun
    cases hri : runItems render g false (fun _ => none) []
        (items.filter (fun it => !(([] : List (Item V)).map
          (fun it => it.unique_id)).contains it.unique_id)) with
    | error e =>
      rw [hri] at hrun
      exact absurd hrun (by simp)
    | ok p =>
      obtain ⟨fs', results⟩ := p
      rw [hri] at hrun
      have hrun' : Except.ok (fs', [] ++ results) = Except.ok out := hrun
      rw [List.nil_append] at hrun'
      injection hrun' with hh
      have hs := runItems_scope render g false _ (fun _ => none) [] (fs', results) hri
      constructor
      · intro id hex
        rw [← hh] at hex
        rcases hs.1 id hex with hnone | hmem
        · simp at hnone
        · exact mem_map_of_mem_filter_map _ items hmem
      · intro e he
        rw [← hh] at he
        rcases hs.2 e he with hacc | hmem
        · simp at hacc
        · exact mem_map_of_mem_filter_map _ items hmem

theorem nonrecover_cleanup_witness :
    some ("b") ∈ ([itemB] : List (Item Nat)).map (fun it => it.unique_id) ∧
    (⟨some ("b"), "hi", none, ["pg"]⟩ : Item Nat).unique_id ∈
      ([itemB] : List (Item Nat)).map (fun it => it.unique_id) := by
  have h := (nonrecover_cleanup renderC gC fsC (fun _ => none) [itemA] []
    [itemB] outCleanC).2 rfl
  refine ⟨h.1 "b" (by decide), h.2 _ ?_⟩
  exact List.mem_singleton.2 rfl

end Glyph
